import Mathlib

/-
Verification development for the recipe-app-api backend.

The embedding models the hand-written Python of the repository:
  - app/core/models.py       (recipe_image_filepath, UserManager.create_user,
                              the Tag / Ingredient / Recipe rows)
  - app/recipe/views.py      (TagIngredientAttrViewSet.get_queryset,
                              RecipeViewSet._params_to_ints,
                              RecipeViewSet.get_queryset, get_object for the
                              detail routes)
  - app/recipe/serializers.py together with the framework update path it
    configures (full replace vs partial update of a Recipe).

Python strings are modelled as lists of Unicode code points (`List Nat`);
the helper `cp` turns a Lean string literal into that representation so that
concrete test inputs stay readable.  Databases are modelled as lists of rows;
query sets are lists.  Functions that can raise a Python exception return
`Option` or `Except`.
-/

deriving instance DecidableEq for Except

namespace RecipeApp

/-! ### Code-point strings and the Python string primitives used by the code -/

/-- Code points of a string literal. Strings in the embedding are `List Nat`. -/
def cp (s : String) : List Nat := s.data.map Char.toNat

/-- Whitespace test of Python `str.strip` (space, tab, newline, carriage
return, vertical tab, form feed; the ASCII subset of Python semantics). -/
def isSpace (c : Nat) : Bool :=
  c = 32 || c = 9 || c = 10 || c = 13 || c = 11 || c = 12

/-- Decimal digit test, code points 48..57, as used by Python `int`. -/
def isDigitCp (c : Nat) : Bool := 48 ≤ c && c ≤ 57

/-- ASCII lower-casing of one code point, as done by Python `str.lower`
on the characters occurring in emails. -/
def lowerCp (c : Nat) : Nat := if 65 ≤ c ∧ c ≤ 90 then c + 32 else c

/-- Python `str.lstrip()` (no argument): drop leading whitespace. -/
def lstrip (s : List Nat) : List Nat := s.dropWhile isSpace

/-- Python `str.rstrip()` (no argument): drop trailing whitespace. -/
def rstrip (s : List Nat) : List Nat := (s.reverse.dropWhile isSpace).reverse

/-- Python `str.strip()` (no argument): drop whitespace at both ends. -/
def pyStrip (s : List Nat) : List Nat := rstrip (lstrip s)

/-- Split at the first occurrence of `c`: returns the part before and the
part after, or `none` when `c` does not occur. -/
def splitFirst (c : Nat) : List Nat → Option (List Nat × List Nat)
  | [] => none
  | x :: xs =>
    if x = c then some ([], xs)
    else (splitFirst c xs).map (fun p => (x :: p.1, p.2))

/-- Python `s.rsplit(c, 1)` for a one-character separator: split at the last
occurrence of `c`, or `none` when `c` does not occur (Python raises
`ValueError` on unpacking in that case). -/
def rsplitLast (c : Nat) (s : List Nat) : Option (List Nat × List Nat) :=
  (splitFirst c s.reverse).map (fun p => (p.2.reverse, p.1.reverse))

/-- Python `s.split(c)` for a one-character separator: the list of segments
between occurrences of `c`; never empty, and `[[]]` on the empty string. -/
def pySplit (c : Nat) : List Nat → List (List Nat)
  | [] => [[]]
  | x :: xs =>
    match pySplit c xs with
    | [] => [[]]
    | seg :: rest => if x = c then [] :: seg :: rest else (x :: seg) :: rest

/-- `os.path.join` (posix) restricted to two components, exactly as used in
`recipe_image_filepath`: an absolute second component wins; otherwise the
components are concatenated, inserting a slash when the first one does not
already end in one. -/
def osPathJoin (a b : List Nat) : List Nat :=
  if b.head? = some 47 then b
  else if a = [] ∨ a.getLast? = some 47 then a ++ b
  else a ++ 47 :: b

/-- Digit-and-underscore tail of a Python `int` literal: after the first
digit, digits may be separated by single underscores (code point 95); an
underscore must be followed by a digit, so `afterUnd` records that the
previous character was an underscore.  Accumulates the decimal value. -/
def pyIntBody (acc : Nat) (afterUnd : Bool) : List Nat → Option Nat
  | [] => if afterUnd then none else some acc
  | c :: cs =>
    if c = 95 then
      if afterUnd then none else pyIntBody acc true cs
    else if isDigitCp c then pyIntBody (acc * 10 + (c - 48)) false cs
    else none

/-- Digit part of a Python `int` literal: at least one digit, then the
digit-and-underscore tail. -/
def pyIntDigits : List Nat → Option Nat
  | [] => none
  | c :: cs => if isDigitCp c then pyIntBody (c - 48) false cs else none

/-- The sign-and-digits part of Python `int`, applied after stripping: one
optional sign (43 is plus, 45 is minus), then a nonempty digit sequence. -/
def pythonIntCore : List Nat → Option Int
  | [] => none
  | c :: rest =>
    if c = 43 then (pyIntDigits rest).map (fun n => (n : Int))
    else if c = 45 then (pyIntDigits rest).map (fun n => -(n : Int))
    else (pyIntDigits (c :: rest)).map (fun n => (n : Int))

/-- Python `int(s)` on a decimal string: surrounding whitespace is stripped,
then an optional sign and a nonempty digit sequence.  `none` models the
`ValueError` Python raises otherwise. -/
def pythonInt (s : List Nat) : Option Int :=
  pythonIntCore (pyStrip s)

/-! ### app/core/models.py -/

/-- `recipe_image_filepath(instance, filename)` from app/core/models.py.
The unused `instance` argument is dropped.  The fresh identifier produced by
`uuid.uuid4()` is passed in as `uuid4`: the repository test mocks `uuid.uuid4`
to a fixed string in exactly this way, and the 128-bit randomness of the
generator lies outside the embedding.  The body mirrors the source:
`extension = filename.split('.')[-1]`, then
`os.path.join('uploads/recipe/', f'{uuid4}.{extension}')`
(46 is the dot, and `pySplit` never returns an empty list, so `getLastD`
is the total rendering of the `[-1]` index). -/
def recipe_image_filepath (uuid4 : List Nat) (filename : List Nat) : List Nat :=
  let extension := (pySplit 46 filename).getLastD []
  let newFilename := uuid4 ++ 46 :: extension
  osPathJoin (cp "uploads/recipe/") newFilename

/-- Django `BaseUserManager.normalize_email`, the framework helper called by
`UserManager.create_user` in app/core/models.py: strip the email, split at
the last `@` (64), lower-case only the domain part; an email without `@` is
returned unchanged. -/
def normalize_email (email : List Nat) : List Nat :=
  match rsplitLast 64 (pyStrip email) with
  | none => email
  | some (emailName, domainPart) => emailName ++ 64 :: domainPart.map lowerCp

/-- An Identity row of the custom `User` model in app/core/models.py.
`password` holds what `set_password` stored (a salted hash, never the
plaintext). -/
structure User where
  email : List Nat
  password : List Nat
  name : List Nat
  is_active : Bool
  is_staff : Bool
  is_superuser : Bool
deriving DecidableEq

/-- The Python exception raised by `UserManager.create_user`. -/
inductive PyError where
  | valueError (msg : List Nat)
deriving DecidableEq

/-- `UserManager.create_user` from app/core/models.py.  The Django password
hasher behind `set_password` (salted PBKDF2, framework code) is passed in as
`setPassword`; `password` is the plaintext.  The body mirrors the source:
`if not email: raise ValueError(...)` (for the string field this is the test
for emptiness), then the user row is built with `normalize_email(email)`,
`set_password(password)` stores the hash, and the user is returned.
Extra fields and the `password=None` default (an unusable password) are not
exercised by the claims and are left out. -/
def create_user (setPassword : List Nat → List Nat) (email : List Nat)
    (password : List Nat) : Except PyError User :=
  if email = [] then
    .error (.valueError (cp "Users must have an email address"))
  else
    .ok { email := normalize_email email
          password := setPassword password
          name := []
          is_active := true
          is_staff := false
          is_superuser := false }

/-- A Tag row: primary key, name, owner foreign key. -/
structure Tag where
  id : Int
  name : List Nat
  user : Int
deriving DecidableEq

/-- An Ingredient row: primary key, name, owner foreign key. -/
structure Ingredient where
  id : Int
  name : List Nat
  user : Int
deriving DecidableEq

/-- A Recipe row together with its many-to-many link sets: `tags` and
`ingredients` hold the primary keys of the linked rows.  `price` is the
`DecimalField(5, 2)` value in hundredths. -/
structure Recipe where
  id : Int
  user : Int
  title : List Nat
  time_minutes : Int
  price : Int
  link : List Nat
  tags : List Int
  ingredients : List Int
deriving DecidableEq

/-- The persistent store: the three owner-scoped tables. -/
structure DB where
  tags : List Tag
  ingredients : List Ingredient
  recipes : List Recipe
deriving DecidableEq

/-! ### app/recipe/views.py -/

/-- Lexicographic comparison of two code-point strings, the order a database
uses for `order_by` on a name column. -/
def lexLt : List Nat → List Nat → Bool
  | _, [] => false
  | [], _ :: _ => true
  | a :: as, b :: bs => if a < b then true else if a = b then lexLt as bs else false

/-- Insert one row into a list sorted by name in descending order. -/
def insertByNameDesc {α : Type} (nameOf : α → List Nat) (x : α) :
    List α → List α
  | [] => [x]
  | y :: ys =>
    if lexLt (nameOf x) (nameOf y) then y :: insertByNameDesc nameOf x ys
    else x :: y :: ys

/-- `order_by('-name')`: sort rows by name, descending. -/
def sortByNameDesc {α : Type} (nameOf : α → List Nat) (l : List α) : List α :=
  l.foldr (insertByNameDesc nameOf) []

/-- `TagIngredientAttrViewSet.get_queryset` from app/recipe/views.py, the
shared base of `TagViewSet` and `IngredientViewSet`:
`self.queryset.filter(user=self.request.user).order_by('-name')`.
`rows` is the `queryset` class attribute (all rows of the table) and
`requestUser` is `self.request.user`.  Note that the body reads no query
parameter at all. -/
def attr_get_queryset {α : Type} (userOf : α → Int) (nameOf : α → List Nat)
    (rows : List α) (requestUser : Int) : List α :=
  sortByNameDesc nameOf (rows.filter (fun t => decide (userOf t = requestUser)))

/-- `TagViewSet`: `queryset = Tag.objects.all()` with the shared
`get_queryset`. -/
def tag_get_queryset (db : DB) (requestUser : Int) : List Tag :=
  attr_get_queryset Tag.user Tag.name db.tags requestUser

/-- `IngredientViewSet`: `queryset = Ingredient.objects.all()` with the
shared `get_queryset`. -/
def ingredient_get_queryset (db : DB) (requestUser : Int) : List Ingredient :=
  attr_get_queryset Ingredient.user Ingredient.name db.ingredients requestUser

/-- The list comprehension `[int(str_id) for str_id in ...]`: `none` as soon
as one conversion raises. -/
def mapIntList : List (List Nat) → Option (List Int)
  | [] => some []
  | q :: qs =>
    match pythonInt q, mapIntList qs with
    | some v, some vs => some (v :: vs)
    | _, _ => none

/-- `RecipeViewSet._params_to_ints` from app/recipe/views.py:
`[int(str_id) for str_id in qs.split(',')]` (44 is the comma).  `none`
models the uncaught `ValueError` when a segment is not a valid integer. -/
def params_to_ints (qs : List Nat) : Option (List Int) :=
  mapIntList (pySplit 44 qs)

/-- The pure filter pipeline of `RecipeViewSet.get_queryset` once the id
lists are known: filter by a tag link in `tagIds` when given, then by an
ingredient link in `ingredientIds` when given, then by
`user=self.request.user`.  A row of `filter(tags__id__in=...)` is kept when
some many-to-many link of the recipe hits the id list; row multiplicity of
the underlying SQL join is not modelled, membership is. -/
def recipe_filter_qs (db : DB) (tagIds ingredientIds : Option (List Int))
    (requestUser : Int) : List Recipe :=
  let q0 := db.recipes
  let q1 : List Recipe := match tagIds with
    | some ids => q0.filter (fun r => r.tags.any (fun t => ids.contains t))
    | none => q0
  let q2 : List Recipe := match ingredientIds with
    | some ids => q1.filter (fun r => r.ingredients.any (fun i => ids.contains i))
    | none => q1
  q2.filter (fun r => decide (r.user = requestUser))

/-- `RecipeViewSet.get_queryset` from app/recipe/views.py.  `tags` and
`ingredients` are `self.request.query_params.get(...)`: `none` when the
parameter is absent.  `if tags:` is Python truthiness, so an empty parameter
string skips the branch; a present nonempty parameter is parsed by
`_params_to_ints`, whose `ValueError` propagates out of the view unhandled
(the outer `none`). -/
def recipe_get_queryset (db : DB) (tags ingredients : Option (List Nat))
    (requestUser : Int) : Option (List Recipe) := do
  let queryset := db.recipes
  let queryset ← match tags with
    | some s =>
      if s ≠ [] then do
        let tag_ids ← params_to_ints s
        pure (queryset.filter
          (fun (r : Recipe) => r.tags.any (fun t => tag_ids.contains t)))
      else pure queryset
    | none => pure queryset
  let queryset ← match ingredients with
    | some s =>
      if s ≠ [] then do
        let ingredients_ids ← params_to_ints s
        pure (queryset.filter
          (fun (r : Recipe) => r.ingredients.any (fun i => ingredients_ids.contains i)))
      else pure queryset
    | none => pure queryset
  pure (queryset.filter (fun r => decide (r.user = requestUser)))

/-- The HTTP errors a detail route can surface for an id lookup. -/
inductive HttpError where
  | notFound
  | forbidden
deriving DecidableEq

/-- The framework `get_object` used by the Recipe detail routes (retrieve,
update, upload_image): `get_object_or_404` over `self.get_queryset()`.  A
detail request carries no list-filter parameter, so the queryset is the
owner-scoped one.  The permission classes perform no object-level check, so
`forbidden` is never produced: an id that is absent and an id owned by a
different identity are both a 404. -/
def recipe_get_object (db : DB) (requestUser : Int) (pk : Int) :
    Except HttpError Recipe :=
  match (recipe_filter_qs db none none requestUser).find?
      (fun r => decide (r.id = pk)) with
  | some r => .ok r
  | none => .error .notFound

/-! ### app/recipe/serializers.py and the framework update path

`RecipeSerializer` declares `tags` and `ingredients` as
`PrimaryKeyRelatedField(many=True)`.  The repository exercises updates
through the test client with form-encoded bodies; on that input the
framework `ManyRelatedField.get_value` turns an omitted many-relation into
the empty list for a full update and skips the field for a partial update,
scalar required fields (`title`, `time_minutes`, `price`) fail validation
when omitted from a full update, `link` (`blank=True`) is optional, and
`ModelSerializer.update` assigns exactly the fields present in the
validated data, many-to-many ones via `.set()`. -/

/-- A request body for a Recipe update; `none` means the field is absent
from the payload. -/
structure RecipePayload where
  title : Option (List Nat)
  time_minutes : Option Int
  price : Option Int
  link : Option (List Nat)
  tags : Option (List Int)
  ingredients : Option (List Int)
deriving DecidableEq

/-- The validated data handed to `update`: only fields present after
validation are set. -/
structure ValidatedData where
  title : Option (List Nat)
  time_minutes : Option Int
  price : Option Int
  link : Option (List Nat)
  tags : Option (List Int)
  ingredients : Option (List Int)
deriving DecidableEq

/-- Serializer validation for a Recipe update; `patch` is true for a partial
update (PATCH) and false for a full replace (PUT).  An omitted many-relation
becomes `[]` on a full replace and stays absent on a partial update; an
omitted required scalar fails a full replace (`none`). -/
def run_validation (patch : Bool) (p : RecipePayload) : Option ValidatedData :=
  let tagsValue := match p.tags with
    | some ts => some ts
    | none => if patch then none else some []
  let ingredientsValue := match p.ingredients with
    | some ids => some ids
    | none => if patch then none else some []
  if patch = false ∧ (p.title = none ∨ p.time_minutes = none ∨ p.price = none) then
    none
  else
    some { title := p.title
           time_minutes := p.time_minutes
           price := p.price
           link := p.link
           tags := tagsValue
           ingredients := ingredientsValue }

/-- `ModelSerializer.update`: assign exactly the fields present in the
validated data, leaving absent fields untouched. -/
def serializer_update (r : Recipe) (v : ValidatedData) : Recipe :=
  { r with
    title := v.title.getD r.title
    time_minutes := v.time_minutes.getD r.time_minutes
    price := v.price.getD r.price
    link := v.link.getD r.link
    tags := v.tags.getD r.tags
    ingredients := v.ingredients.getD r.ingredients }

/-- The whole update path of the Recipe detail route: validate, then update.
`none` is the 400 response on invalid data. -/
def recipe_update (patch : Bool) (p : RecipePayload) (r : Recipe) :
    Option Recipe :=
  (run_validation patch p).map (serializer_update r)

/-! ### Auxiliary definitions for the statements below -/

/-- What `RecipeViewSet.get_queryset` does to one query parameter before
filtering: an absent parameter and a present-but-empty one contribute no id
filter (`some none`), a nonempty one is parsed by `_params_to_ints`
(`none` when that raises). -/
def parse_list_param : Option (List Nat) → Option (Option (List Int))
  | none => some none
  | some s => if s = [] then some none else (params_to_ints s).map some

/-- Decimal value of a digit string (code points 48..57). -/
def digitsVal (p : List Nat) : Nat :=
  p.foldl (fun a c => a * 10 + (c - 48)) 0

/-- A code point that can appear nowhere in a valid argument of Python
`int`: not a digit, not a sign, not an underscore, not whitespace. -/
def badIntChar (c : Nat) : Bool :=
  !(isDigitCp c || c = 43 || c = 45 || c = 95 || isSpace c)

/-- Join segments with commas, the inverse image of `pySplit 44`. -/
def joinComma : List (List Nat) → List Nat
  | [] => []
  | [p] => p
  | p :: ps => p ++ 44 :: joinComma ps

/-- A stand-in for the injected password hasher in concrete instances. -/
def fixedHash (p : List Nat) : List Nat := 35 :: p

/-! ### Concrete rows used to instantiate the statements below.
They mirror the fixtures of the repository test-suite. -/

/-- Tag Breakfast of user 1, linked to recipe 1 (test_tags_api). -/
def tagBreakfast : Tag := ⟨1, cp "Breakfast", 1⟩

/-- Tag Lunch of user 1, linked to no recipe (test_tags_api). -/
def tagLunch : Tag := ⟨2, cp "Lunch", 1⟩

/-- Tag Fruity of user 2 (test_tags_api, the other identity). -/
def tagFruity : Tag := ⟨3, cp "Fruity", 2⟩

/-- Ingredient Jalapeno of user 1. -/
def ingJalapeno : Ingredient := ⟨1, cp "Jalapeno", 1⟩

/-- Recipe of user 1 holding tag 1 only. -/
def recHuevos : Recipe := ⟨1, 1, cp "Huevos Rancheros", 8, 1000, [], [1], []⟩

/-- The store of the tag fixtures. -/
def tagDB : DB := ⟨[tagBreakfast, tagLunch, tagFruity], [ingJalapeno], [recHuevos]⟩

/-- Recipe tagged soup (test_filter_recipes_by_tags). -/
def recSoup : Recipe := ⟨1, 1, cp "Chicken Lime Soup", 10, 1000, [], [1], []⟩

/-- Recipe tagged fish (test_filter_recipes_by_tags). -/
def recFish : Recipe := ⟨2, 1, cp "Salmon with lemon", 10, 1000, [], [2], []⟩

/-- Untagged recipe (test_filter_recipes_by_tags). -/
def recPlain : Recipe := ⟨3, 1, cp "Tenderloin", 10, 1000, [], [], []⟩

/-- The store of the recipe-filter fixtures: three recipes, two tagged,
one untagged. -/
def filterDB : DB := ⟨[⟨1, cp "soup", 1⟩, ⟨2, cp "fish", 1⟩], [],
  [recSoup, recFish, recPlain]⟩

/-- The PUT payload of test_full_update_recipe: scalars present, `tags`
omitted. -/
def putPayload : RecipePayload :=
  ⟨some (cp "Chiken Pasta Fettuccine"), some 35, some 4500, none, none, none⟩

/-! ### Membership in the owner-scoped query sets -/

theorem mem_insertByNameDesc {α : Type} (nameOf : α → List Nat) (x : α)
    (l : List α) (y : α) :
    y ∈ insertByNameDesc nameOf x l ↔ y = x ∨ y ∈ l := by
  induction l with
  | nil => simp [insertByNameDesc]
  | cons a l ih =>
    simp only [insertByNameDesc]
    split
    · simp only [List.mem_cons, ih]
      tauto
    · simp [List.mem_cons]

theorem mem_sortByNameDesc {α : Type} (nameOf : α → List Nat) (l : List α)
    (y : α) : y ∈ sortByNameDesc nameOf l ↔ y ∈ l := by
  induction l with
  | nil => simp [sortByNameDesc]
  | cons a l ih =>
    simp only [sortByNameDesc, List.foldr_cons] at *
    rw [mem_insertByNameDesc, ih]
    simp [List.mem_cons]

theorem mem_attr_get_queryset {α : Type} (userOf : α → Int)
    (nameOf : α → List Nat) (rows : List α) (u : Int) (x : α) :
    x ∈ attr_get_queryset userOf nameOf rows u ↔ x ∈ rows ∧ userOf x = u := by
  rw [attr_get_queryset, mem_sortByNameDesc]
  simp [List.mem_filter]

theorem mem_recipe_filter_qs (db : DB) (tagIds ingredientIds : Option (List Int))
    (u : Int) (r : Recipe) :
    r ∈ recipe_filter_qs db tagIds ingredientIds u ↔
      r ∈ db.recipes ∧ r.user = u ∧
      (∀ ids, tagIds = some ids → ∃ t ∈ r.tags, t ∈ ids) ∧
      (∀ ids, ingredientIds = some ids → ∃ i ∈ r.ingredients, i ∈ ids) := by
  rcases tagIds with _ | tids <;> rcases ingredientIds with _ | iids <;>
    simp [recipe_filter_qs, List.mem_filter, List.any_eq_true, List.elem_iff] <;>
    tauto

theorem recipe_get_queryset_parse (db : DB) (tp ip : Option (List Nat))
    (u : Int) :
    recipe_get_queryset db tp ip u =
      match parse_list_param tp, parse_list_param ip with
      | some ot, some oi => some (recipe_filter_qs db ot oi u)
      | _, _ => none := by
  rcases tp with _ | s <;> rcases ip with _ | t
  · rfl
  · by_cases h : t = []
    · subst h; rfl
    · cases hp : params_to_ints t <;>
        simp [recipe_get_queryset, parse_list_param, h, hp, recipe_filter_qs]
  · by_cases h : s = []
    · subst h; rfl
    · cases hp : params_to_ints s <;>
        simp [recipe_get_queryset, parse_list_param, h, hp, recipe_filter_qs]
  · by_cases h : s = [] <;> by_cases h2 : t = []
    · subst h; subst h2; rfl
    · subst h
      cases hq : params_to_ints t <;>
        simp [recipe_get_queryset, parse_list_param, h2, hq, recipe_filter_qs]
    · subst h2
      cases hp : params_to_ints s <;>
        simp [recipe_get_queryset, parse_list_param, h, hp, recipe_filter_qs]
    · cases hp : params_to_ints s <;> cases hq : params_to_ints t <;>
        simp [recipe_get_queryset, parse_list_param, h, h2, hp, hq,
          recipe_filter_qs, Bool.and_assoc]

/-! ### The claims -/

/-- C1: every list query over Tag, Ingredient, or Recipe, with or without
optional filters, only ever returns rows owned by the calling identity; in
particular two distinct identities never see each other's rows. -/
theorem list_queries_owner_scoped (db : DB) (u other : Int) :
    (∀ t ∈ tag_get_queryset db u, t.user = u) ∧
    (∀ i ∈ ingredient_get_queryset db u, i.user = u) ∧
    (∀ tp ip res, recipe_get_queryset db tp ip u = some res →
      ∀ r ∈ res, r.user = u) ∧
    (other ≠ u →
      (∀ t ∈ tag_get_queryset db u, t.user ≠ other) ∧
      (∀ i ∈ ingredient_get_queryset db u, i.user ≠ other)) := by
  have htag : ∀ t ∈ tag_get_queryset db u, t.user = u := fun t ht =>
    ((mem_attr_get_queryset Tag.user Tag.name db.tags u t).mp ht).2
  have hing : ∀ i ∈ ingredient_get_queryset db u, i.user = u := fun i hi =>
    ((mem_attr_get_queryset Ingredient.user Ingredient.name db.ingredients
      u i).mp hi).2
  refine ⟨htag, hing, ?_, ?_⟩
  · intro tp ip res h r hr
    rw [recipe_get_queryset_parse] at h
    rcases hp : parse_list_param tp with _ | ot <;> rw [hp] at h
    · exact absurd h (by simp)
    rcases hq : parse_list_param ip with _ | oi <;> rw [hq] at h
    · exact absurd h (by simp)
    simp only [Option.some.injEq] at h
    subst h
    exact ((mem_recipe_filter_qs db ot oi u r).mp hr).2.1
  · intro hne
    refine ⟨fun t ht h2 => ?_, fun i hi h2 => ?_⟩
    · exact hne (h2.symm.trans (htag t ht))
    · exact hne (h2.symm.trans (hing i hi))

/-- C1 witness: with the test fixtures, user 1 listing tags gets a tag it
owns, never one owned by user 2. -/
theorem list_queries_owner_scoped_witness :
    tagBreakfast.user = 1 ∧ tagBreakfast.user ≠ 2 := by
  have h := list_queries_owner_scoped tagDB 1 2
  exact ⟨h.1 tagBreakfast (by decide), (h.2.2.2 (by decide)).1 tagBreakfast
    (by decide)⟩

/-- C2: the code evaluated at the failing input of
test_retrieve_tags_assigned_to_recipes.  The shared
`TagIngredientAttrViewSet.get_queryset` reads no query parameter, so with
`assigned_only` enabled the unassigned tag Lunch is still returned even
though it appears in no recipe's relationship set — the repository's own
tests require it to be excluded. -/
theorem assigned_only_ignored_by_queryset :
    tagLunch ∈ tag_get_queryset tagDB 1 ∧
    (∀ r ∈ tagDB.recipes, tagLunch.id ∉ r.tags) := by
  constructor
  · decide
  · decide

/-- C3: listing Recipes with optional tag and ingredient id filters returns
exactly the recipes owned by the caller that hit each given id set with at
least one relationship link — OR within a set, AND across the two sets, all
non-matching recipes excluded.  `ot`/`oi` are the parsed id sets of the two
query parameters (`none` when the parameter is absent or empty). -/
theorem recipe_list_filtering_exact (db : DB) (u : Int)
    (tp ip : Option (List Nat)) (ot oi : Option (List Int))
    (res : List Recipe)
    (hp : parse_list_param tp = some ot) (hq : parse_list_param ip = some oi)
    (h : recipe_get_queryset db tp ip u = some res) :
    ∀ r, r ∈ res ↔
      r ∈ db.recipes ∧ r.user = u ∧
      (∀ ids, ot = some ids → ∃ t ∈ r.tags, t ∈ ids) ∧
      (∀ ids, oi = some ids → ∃ i ∈ r.ingredients, i ∈ ids) := by
  rw [recipe_get_queryset_parse, hp, hq] at h
  simp only [Option.some.injEq] at h
  subst h
  exact fun r => mem_recipe_filter_qs db ot oi u r

/-- C3 witness: the spec scenario — three recipes of user 1, two tagged
with tags 1 and 2, one untagged; filtering by `tags=1,2` keeps the tagged
ones and excludes the untagged one. -/
theorem recipe_list_filtering_exact_witness :
    recSoup ∈ recipe_filter_qs filterDB (some [1, 2]) none 1 ∧
    recPlain ∉ recipe_filter_qs filterDB (some [1, 2]) none 1 := by
  have h := recipe_list_filtering_exact filterDB 1 (some (cp "1,2")) none
    (some [1, 2]) none (recipe_filter_qs filterDB (some [1, 2]) none 1)
    (by decide) rfl (by decide)
  constructor
  · refine (h recSoup).mpr ⟨by decide, by decide, ?_, ?_⟩
    · intro ids hids
      cases hids
      exact ⟨1, by decide, by decide⟩
    · intro ids hids
      cases hids
  · intro hmem
    rcases ((h recPlain).mp hmem).2.2.1 [1, 2] rfl with ⟨t, ht, _⟩
    simp [recPlain] at ht

/-- C7: retrieving a single Recipe by id yields the 404 error exactly when
no recipe with that id is owned by the caller — whether the id does not
exist at all or belongs to a different identity — and never yields a 403,
so existence is not revealed to non-owners. -/
theorem detail_lookup_not_owned_is_404 (db : DB) (u pk : Int) :
    (recipe_get_object db u pk = .error .notFound ↔
      ¬ ∃ r ∈ db.recipes, r.id = pk ∧ r.user = u) ∧
    recipe_get_object db u pk ≠ .error .forbidden := by
  unfold recipe_get_object
  cases hf : (recipe_filter_qs db none none u).find?
      (fun r => decide (r.id = pk)) with
  | none =>
    rw [List.find?_eq_none] at hf
    simp only [ne_eq]
    constructor
    · simp only [true_iff, iff_true]
      rintro ⟨r, hr, hid, hu⟩
      have hmem : r ∈ recipe_filter_qs db none none u := by
        rw [mem_recipe_filter_qs]
        refine ⟨hr, hu, ?_, ?_⟩ <;> (intro ids h; cases h)
      have := hf r hmem
      simp [hid] at this
    · simp
  | some r =>
    have hmem := List.mem_of_find?_eq_some hf
    have hid : r.id = pk := by
      have := List.find?_some hf
      simpa using this
    have hr := (mem_recipe_filter_qs db none none u r).mp hmem
    constructor
    · simp only [iff_iff_implies_and_implies]
      constructor
      · intro h; exact absurd h (by simp)
      · intro h
        exact absurd ⟨r, hr.1, hid, hr.2.1⟩ h
    · simp

/-- C4: a full replace (PUT) whose payload omits the tags relationship field
leaves the recipe with zero tags afterward, while a partial update (PATCH)
whose payload omits tags leaves the existing tags unchanged. -/
theorem put_clears_patch_keeps_tags (p : RecipePayload) (r : Recipe)
    (htags : p.tags = none) (h1 : p.title ≠ none) (h2 : p.time_minutes ≠ none)
    (h3 : p.price ≠ none) :
    (recipe_update false p r).map Recipe.tags = some [] ∧
    (recipe_update true p r).map Recipe.tags = some r.tags := by
  unfold recipe_update run_validation serializer_update
  simp [htags, h1, h2, h3]

/-- C4 witness: the payload of test_full_update_recipe (scalars present,
tags omitted) clears the tags under PUT and keeps them under PATCH. -/
theorem put_clears_patch_keeps_tags_witness :
    (recipe_update false putPayload recHuevos).map Recipe.tags = some [] ∧
    (recipe_update true putPayload recHuevos).map Recipe.tags =
      some recHuevos.tags :=
  put_clears_patch_keeps_tags putPayload recHuevos rfl (by decide) (by decide)
    (by decide)

/-- C6: createUser fails — with the ValueError that the spec surfaces as a
ValidationError — exactly when the email is empty; on a nonempty email it
returns the created Identity carrying the normalized email and the output
of the salted password hasher, never the plaintext. -/
theorem create_user_email_validation (hash : List Nat → List Nat)
    (E P : List Nat) :
    (E = [] → create_user hash E P =
      .error (.valueError (cp "Users must have an email address"))) ∧
    (E ≠ [] → ∃ u, create_user hash E P = .ok u ∧
      u.email = normalize_email E ∧ u.password = hash P) := by
  constructor
  · intro h
    simp [create_user, h]
  · intro h
    unfold create_user
    rw [if_neg h]
    exact ⟨_, rfl, rfl, rfl⟩

/-- C6 witness: the empty email fails, a concrete nonempty email yields the
identity with normalized email and hashed password. -/
theorem create_user_email_validation_witness :
    create_user fixedHash [] (cp "pw") =
      .error (.valueError (cp "Users must have an email address")) ∧
    ∃ u, create_user fixedHash (cp "a@b.c") (cp "pw") = .ok u ∧
      u.email = normalize_email (cp "a@b.c") ∧
      u.password = fixedHash (cp "pw") :=
  ⟨(create_user_email_validation fixedHash [] (cp "pw")).1 rfl,
   (create_user_email_validation fixedHash (cp "a@b.c") (cp "pw")).2
     (by decide)⟩

/-! ### Splitting lemmas for the image path generator -/

theorem pySplit_ne_nil (c : Nat) (s : List Nat) : pySplit c s ≠ [] := by
  induction s with
  | nil => simp [pySplit]
  | cons x xs ih =>
    cases h : pySplit c xs with
    | nil => simp [pySplit, h]
    | cons seg rest =>
      simp only [pySplit, h]
      split <;> simp

theorem pySplit_no_sep (c : Nat) (s : List Nat) (h : c ∉ s) :
    pySplit c s = [s] := by
  induction s with
  | nil => rfl
  | cons x xs ih =>
    have hx : ¬x = c := fun e => h (e ▸ List.mem_cons_self x xs)
    have hxs : c ∉ xs := fun hc => h (List.mem_cons_of_mem _ hc)
    unfold pySplit
    rw [ih hxs]
    simp [hx]

theorem pySplit_append (c : Nat) (a b : List Nat) :
    pySplit c (a ++ c :: b) = pySplit c a ++ pySplit c b := by
  induction a with
  | nil =>
    cases h : pySplit c b with
    | nil => exact absurd h (pySplit_ne_nil c b)
    | cons seg rest => simp [pySplit, h]
  | cons x xs ih =>
    cases h : pySplit c xs with
    | nil => exact absurd h (pySplit_ne_nil c xs)
    | cons seg rest =>
      rw [List.cons_append]
      simp only [pySplit]
      rw [ih, h]
      simp only [List.cons_append]
      split <;> simp

theorem osPathJoin_uploads (b : List Nat) (hb : b.head? ≠ some 47) :
    osPathJoin (cp "uploads/recipe/") b = cp "uploads/recipe/" ++ b := by
  unfold osPathJoin
  rw [if_neg hb, if_pos (Or.inr (by decide))]

theorem head_append_cons_ne (uuid t : List Nat) (x : Nat) (hx : x ≠ 47)
    (h : uuid.head? ≠ some 47) : (uuid ++ x :: t).head? ≠ some 47 := by
  cases uuid with
  | nil => simpa using hx
  | cons a us => simpa using (by simpa using h : a ≠ 47)

/-- C5: `generatePath` takes the extension after the final dot of the
original filename and returns `uploads/recipe/<uuid>.<extension>`, where
the identifier is injected (the repository test fixes it to `test-uuid`);
in particular on `my_image.jpg` with identifier `test-uuid` the result is
exactly `uploads/recipe/test-uuid.jpg`.  The embedding is a pure function
of its arguments, matching the no-side-effects reading. -/
theorem image_filepath_extension_after_final_dot :
    (∀ uuid stem ext, 46 ∉ ext → uuid.head? ≠ some 47 →
      recipe_image_filepath uuid (stem ++ 46 :: ext) =
        cp "uploads/recipe/" ++ uuid ++ 46 :: ext) ∧
    recipe_image_filepath (cp "test-uuid") (cp "my_image.jpg") =
      cp "uploads/recipe/test-uuid.jpg" := by
  constructor
  · intro uuid stem ext hext huuid
    unfold recipe_image_filepath
    rw [pySplit_append, pySplit_no_sep 46 ext hext]
    have hlast : (pySplit 46 stem ++ [ext]).getLastD [] = ext := by
      simp [List.getLastD_eq_getLast?, List.getLast?_append]
    rw [hlast, osPathJoin_uploads _ (head_append_cons_ne uuid ext 46
      (by decide) huuid), List.append_assoc]
  · decide

/-- C5 witness: a filename with two dots keeps only the part after the
final one as the extension. -/
theorem image_filepath_extension_witness :
    recipe_image_filepath (cp "u1") (cp "a.b" ++ 46 :: cp "jpg") =
      cp "uploads/recipe/" ++ cp "u1" ++ 46 :: cp "jpg" :=
  image_filepath_extension_after_final_dot.1 (cp "u1") (cp "a.b") (cp "jpg")
    (by decide) (by decide)

/-- C9: on a filename containing no dot, `generatePath` does not fail — the
whole filename becomes the extension, because splitting on the dot and
taking the last element returns the filename itself. -/
theorem image_filepath_no_dot (uuid F : List Nat) (h : 46 ∉ F)
    (huuid : uuid.head? ≠ some 47) :
    recipe_image_filepath uuid F = cp "uploads/recipe/" ++ uuid ++ 46 :: F := by
  unfold recipe_image_filepath
  rw [pySplit_no_sep 46 F h]
  have hl : ([F] : List (List Nat)).getLastD [] = F := rfl
  rw [hl, osPathJoin_uploads _ (head_append_cons_ne uuid F 46 (by decide)
    huuid), List.append_assoc]

/-- C9 witness: a dotless filename is used whole as the extension. -/
theorem image_filepath_no_dot_witness :
    recipe_image_filepath (cp "u2") (cp "noext") =
      cp "uploads/recipe/" ++ cp "u2" ++ 46 :: cp "noext" :=
  image_filepath_no_dot (cp "u2") (cp "noext") (by decide) (by decide)

/-! ### Stripping lemmas -/

theorem mem_of_head?_eq_some {l : List Nat} {x : Nat} (h : l.head? = some x) :
    x ∈ l :=
  List.mem_of_mem_head? (by simp [h])

theorem mem_of_getLast?_eq_some {l : List Nat} {x : Nat}
    (h : l.getLast? = some x) : x ∈ l := by
  induction l with
  | nil => simp at h
  | cons a l ih =>
    cases l with
    | nil => simp_all
    | cons b m =>
      rw [List.getLast?_cons_cons] at h
      exact List.mem_cons_of_mem _ (ih h)

theorem dropWhile_eq_self_of_head (p : Nat → Bool) (l : List Nat)
    (h : ∀ x, l.head? = some x → p x = false) : l.dropWhile p = l := by
  cases l with
  | nil => rfl
  | cons a l =>
    rw [List.dropWhile_cons, h a rfl]
    simp

theorem lstrip_eq_self (l : List Nat)
    (h : ∀ x, l.head? = some x → isSpace x = false) : lstrip l = l :=
  dropWhile_eq_self_of_head isSpace l h

theorem rstrip_eq_self (l : List Nat)
    (h : ∀ x, l.getLast? = some x → isSpace x = false) : rstrip l = l := by
  unfold rstrip
  rw [dropWhile_eq_self_of_head isSpace l.reverse
    (fun x hx => h x (by rwa [List.head?_reverse] at hx)),
    List.reverse_reverse]

theorem pyStrip_eq_self (l : List Nat)
    (h1 : ∀ x, l.head? = some x → isSpace x = false)
    (h2 : ∀ x, l.getLast? = some x → isSpace x = false) : pyStrip l = l := by
  unfold pyStrip
  rw [lstrip_eq_self l h1, rstrip_eq_self l h2]

theorem isSpace_eq_false_of_digit {c : Nat} (h : isDigitCp c = true) :
    isSpace c = false := by
  simp [isDigitCp] at h
  simp [isSpace]
  omega

theorem ne_95_of_digit {c : Nat} (h : isDigitCp c = true) : ¬c = 95 := by
  simp [isDigitCp] at h
  omega

theorem pyStrip_digits (p : List Nat) (hd : ∀ c ∈ p, isDigitCp c = true) :
    pyStrip p = p :=
  pyStrip_eq_self p
    (fun x hx => isSpace_eq_false_of_digit (hd x (mem_of_head?_eq_some hx)))
    (fun x hx => isSpace_eq_false_of_digit (hd x (mem_of_getLast?_eq_some hx)))

/-! ### Python int on digit strings -/

theorem pyIntBody_digits (cs : List Nat)
    (hd : ∀ c ∈ cs, isDigitCp c = true) (acc : Nat) :
    pyIntBody acc false cs =
      some (cs.foldl (fun a c => a * 10 + (c - 48)) acc) := by
  induction cs generalizing acc with
  | nil => rfl
  | cons c cs ih =>
    have hc := hd c (List.mem_cons_self c cs)
    simp only [pyIntBody]
    rw [if_neg (ne_95_of_digit hc), if_pos hc,
      ih (fun x hx => hd x (List.mem_cons_of_mem _ hx))]
    simp [List.foldl_cons]

theorem pyIntDigits_digits (p : List Nat) (hne : p ≠ [])
    (hd : ∀ c ∈ p, isDigitCp c = true) :
    pyIntDigits p = some (digitsVal p) := by
  cases p with
  | nil => exact absurd rfl hne
  | cons c cs =>
    have hc := hd c (List.mem_cons_self c cs)
    simp only [pyIntDigits]
    rw [if_pos hc, pyIntBody_digits cs (fun x hx => hd x
      (List.mem_cons_of_mem _ hx))]
    simp [digitsVal, List.foldl_cons]

theorem pythonInt_digits (p : List Nat) (hne : p ≠ [])
    (hd : ∀ c ∈ p, isDigitCp c = true) :
    pythonInt p = some ((digitsVal p : Nat) : Int) := by
  unfold pythonInt
  rw [pyStrip_digits p hd]
  cases p with
  | nil => exact absurd rfl hne
  | cons c cs =>
    have hc := hd c (List.mem_cons_self c cs)
    have h43 : ¬c = 43 := by simp [isDigitCp] at hc; omega
    have h45 : ¬c = 45 := by simp [isDigitCp] at hc; omega
    simp only [pythonIntCore]
    rw [if_neg h43, if_neg h45, pyIntDigits_digits (c :: cs) (by simp) hd]
    rfl

/-! ### Python int failing on malformed segments -/

theorem mem_dropWhile_of_not (p : Nat → Bool) (l : List Nat) (c : Nat)
    (hc : c ∈ l) (h : p c = false) : c ∈ l.dropWhile p := by
  induction l with
  | nil => cases hc
  | cons a l ih =>
    rw [List.dropWhile_cons]
    by_cases ha : p a = true
    · rw [ha]
      simp only [if_true]
      rcases List.mem_cons.mp hc with h2 | h2
      · subst h2; rw [h] at ha; cases ha
      · exact ih h2
    · rw [Bool.eq_false_iff.mpr ha]
      simpa using hc

theorem mem_pyStrip (l : List Nat) (c : Nat) (hc : c ∈ l)
    (h : isSpace c = false) : c ∈ pyStrip l := by
  unfold pyStrip rstrip lstrip
  have h1 : c ∈ l.dropWhile isSpace := mem_dropWhile_of_not isSpace l c hc h
  have h2 : c ∈ (l.dropWhile isSpace).reverse := List.mem_reverse.mpr h1
  have h3 := mem_dropWhile_of_not isSpace _ c h2 h
  exact List.mem_reverse.mpr h3

theorem pyIntBody_bad (c : Nat) (hdig : isDigitCp c = false) (h95 : ¬c = 95) :
    ∀ (cs : List Nat), c ∈ cs → ∀ (acc : Nat) (b : Bool),
      pyIntBody acc b cs = none := by
  intro cs
  induction cs with
  | nil => intro hc; cases hc
  | cons a cs ih =>
    intro hc acc b
    simp only [pyIntBody]
    by_cases ha : a = 95
    · subst ha
      rw [if_pos rfl]
      have hcs : c ∈ cs := by
        rcases List.mem_cons.mp hc with h | h
        · exact absurd h h95
        · exact h
      cases b with
      | false => simpa using ih hcs acc true
      | true => simp
    · rw [if_neg ha]
      by_cases hda : isDigitCp a = true
      · have hcs : c ∈ cs := by
          rcases List.mem_cons.mp hc with h | h
          · subst h; rw [hda] at hdig; cases hdig
          · exact h
        rw [if_pos hda]
        exact ih hcs _ false
      · rw [if_neg hda]

theorem pyIntDigits_bad (cs : List Nat) (c : Nat) (hc : c ∈ cs)
    (hdig : isDigitCp c = false) (h95 : ¬c = 95) : pyIntDigits cs = none := by
  cases cs with
  | nil => rfl
  | cons a l =>
    simp only [pyIntDigits]
    by_cases hda : isDigitCp a = true
    · have hcl : c ∈ l := by
        rcases List.mem_cons.mp hc with h | h
        · subst h; rw [hda] at hdig; cases hdig
        · exact h
      rw [if_pos hda]
      exact pyIntBody_bad c hdig h95 l hcl _ false
    · rw [if_neg hda]

theorem pythonInt_bad (q : List Nat) (c : Nat) (hc : c ∈ q)
    (hb : badIntChar c = true) : pythonInt q = none := by
  simp only [badIntChar, Bool.not_eq_true', Bool.or_eq_false_iff] at hb
  obtain ⟨⟨⟨⟨hdig, h43⟩, h45⟩, h95⟩, hsp⟩ := hb
  simp only [decide_eq_false_iff_not] at h43 h45 h95
  have hmem := mem_pyStrip q c hc hsp
  unfold pythonInt
  cases hstr : pyStrip q with
  | nil => rfl
  | cons a rest =>
    rw [hstr] at hmem
    simp only [pythonIntCore]
    by_cases ha43 : a = 43
    · subst ha43
      have hrest : c ∈ rest := by
        rcases List.mem_cons.mp hmem with h | h
        · exact absurd h h43
        · exact h
      rw [if_pos rfl, pyIntDigits_bad rest c hrest hdig h95]
      rfl
    · by_cases ha45 : a = 45
      · subst ha45
        have hrest : c ∈ rest := by
          rcases List.mem_cons.mp hmem with h | h
          · exact absurd h h45
          · exact h
        rw [if_neg (by omega : ¬(45 : Nat) = 43), if_pos rfl,
          pyIntDigits_bad rest c hrest hdig h95]
        rfl
      · rw [if_neg ha43, if_neg ha45,
          pyIntDigits_bad (a :: rest) c hmem hdig h95]
        rfl

/-! ### Segment lists -/

theorem pySplit_joinComma (parts : List (List Nat)) (hne : parts ≠ [])
    (h : ∀ p ∈ parts, 44 ∉ p) : pySplit 44 (joinComma parts) = parts := by
  induction parts with
  | nil => exact absurd rfl hne
  | cons p ps ih =>
    cases ps with
    | nil => exact pySplit_no_sep 44 p (h p (List.mem_cons_self p []))
    | cons q qs =>
      have hjoin : joinComma (p :: q :: qs) = p ++ 44 :: joinComma (q :: qs) :=
        rfl
      rw [hjoin, pySplit_append,
        pySplit_no_sep 44 p (h p (List.mem_cons_self p _)),
        ih (by simp) (fun x hx => h x (List.mem_cons_of_mem _ hx))]
      rfl

theorem mapIntList_digits (l : List (List Nat))
    (h : ∀ p ∈ l, p ≠ [] ∧ ∀ c ∈ p, isDigitCp c = true) :
    mapIntList l = some (l.map (fun p => ((digitsVal p : Nat) : Int))) := by
  induction l with
  | nil => rfl
  | cons p ps ih =>
    have hp := h p (List.mem_cons_self p ps)
    simp only [mapIntList]
    rw [pythonInt_digits p hp.1 hp.2,
      ih (fun x hx => h x (List.mem_cons_of_mem _ hx))]
    rfl

theorem mapIntList_none (l : List (List Nat)) (q : List Nat) (hq : q ∈ l)
    (h : pythonInt q = none) : mapIntList l = none := by
  induction l with
  | nil => cases hq
  | cons p ps ih =>
    simp only [mapIntList]
    rcases List.mem_cons.mp hq with h2 | h2
    · subst h2
      rw [h]
    · rw [ih h2]
      cases pythonInt p <;> rfl

theorem recipe_get_queryset_param_error (db : DB) (u : Int)
    (ip : Option (List Nat)) (s : List Nat) (h0 : s ≠ [])
    (h : params_to_ints s = none) :
    recipe_get_queryset db (some s) ip u = none := by
  rw [recipe_get_queryset_parse]
  have : parse_list_param (some s) = none := by
    simp [parse_list_param, h0, h]
  rw [this]

/-- C10: `_params_to_ints` is only defined on nonempty comma-separated
decimal integer strings — on those it returns the corresponding list of
integers — while any input containing an empty or non-numeric segment makes
it raise (and `get_queryset` propagates the exception unhandled instead of
answering with a 400). -/
theorem params_to_ints_domain :
    (∀ parts, parts ≠ [] →
      (∀ p ∈ parts, p ≠ [] ∧ ∀ c ∈ p, isDigitCp c = true) →
      params_to_ints (joinComma parts) =
        some (parts.map (fun p => ((digitsVal p : Nat) : Int)))) ∧
    (∀ s q, q ∈ pySplit 44 s → (q = [] ∨ ∃ c ∈ q, badIntChar c = true) →
      params_to_ints s = none) ∧
    (∀ db u ip s, s ≠ [] → params_to_ints s = none →
      recipe_get_queryset db (some s) ip u = none) := by
  refine ⟨?_, ?_, ?_⟩
  · intro parts hne hd
    have hnocomma : ∀ p ∈ parts, 44 ∉ p := by
      intro p hp hc
      have := (hd p hp).2 44 hc
      simp [isDigitCp] at this
    rw [params_to_ints, pySplit_joinComma parts hne hnocomma]
    exact mapIntList_digits parts hd
  · intro s q hq hbad
    rw [params_to_ints]
    rcases hbad with h | ⟨c, hc, hb⟩
    · subst h
      exact mapIntList_none _ [] hq rfl
    · exact mapIntList_none _ q hq (pythonInt_bad q c hc hb)
  · intro db u ip s h0 h
    exact recipe_get_queryset_param_error db u ip s h0 h

/-- C10 witness: `1,25` parses to the id list, `1,` (empty segment) and `a`
(non-numeric segment) raise, and the raise escapes `get_queryset`. -/
theorem params_to_ints_domain_witness :
    params_to_ints (cp "1,25") = some [1, 25] ∧
    params_to_ints (cp "1,") = none ∧
    recipe_get_queryset tagDB (some (cp "a")) none 1 = none := by
  refine ⟨?_, ?_, ?_⟩
  · have h := params_to_ints_domain.1 [cp "1", cp "25"] (by decide) (by decide)
    rw [show cp "1,25" = joinComma [cp "1", cp "25"] from by decide]
    exact h.trans (by decide)
  · exact params_to_ints_domain.2.1 (cp "1,") [] (by decide) (Or.inl rfl)
  · exact params_to_ints_domain.2.2 tagDB 1 none (cp "a") (by decide)
      (by decide)

/-! ### Lower-casing and last-split lemmas for email normalization -/

theorem lowerCp_idem (c : Nat) : lowerCp (lowerCp c) = lowerCp c := by
  unfold lowerCp
  by_cases h : 65 ≤ c ∧ c ≤ 90
  · rw [if_pos h, if_neg (by omega)]
  · rw [if_neg h, if_neg h]

theorem isSpace_lowerCp (c : Nat) : isSpace (lowerCp c) = isSpace c := by
  unfold lowerCp
  by_cases h : 65 ≤ c ∧ c ≤ 90
  · have h1 : isSpace (c + 32) = false := by simp [isSpace]; omega
    have h2 : isSpace c = false := by simp [isSpace]; omega
    rw [if_pos h, h1, h2]
  · rw [if_neg h]

theorem lowerCp_eq_64_iff (c : Nat) : lowerCp c = 64 ↔ c = 64 := by
  unfold lowerCp
  by_cases h : 65 ≤ c ∧ c ≤ 90
  · rw [if_pos h]
    constructor <;> (intro h2; omega)
  · rw [if_neg h]

theorem splitFirst_some (c : Nat) (s : List Nat) :
    ∀ a b, splitFirst c s = some (a, b) → s = a ++ c :: b ∧ c ∉ a := by
  induction s with
  | nil => intro a b h; cases h
  | cons x xs ih =>
    intro a b h
    simp only [splitFirst] at h
    by_cases hx : x = c
    · rw [if_pos hx] at h
      injection h with h2
      obtain ⟨rfl, rfl⟩ : [] = a ∧ xs = b := by
        constructor <;> [exact congrArg Prod.fst h2; exact congrArg Prod.snd h2]
      subst hx
      exact ⟨rfl, List.not_mem_nil x⟩
    · rw [if_neg hx] at h
      cases hsf : splitFirst c xs with
      | none => rw [hsf] at h; cases h
      | some p =>
        rw [hsf] at h
        simp only [Option.map_some'] at h
        injection h with h2
        obtain ⟨rfl, rfl⟩ : x :: p.1 = a ∧ p.2 = b := by
          constructor <;> [exact congrArg Prod.fst h2; exact congrArg Prod.snd h2]
        obtain ⟨h3, h4⟩ := ih p.1 p.2 (by rw [hsf])
        refine ⟨by rw [List.cons_append, ← h3], ?_⟩
        intro hc
        rcases List.mem_cons.mp hc with h5 | h5
        · exact hx h5.symm
        · exact h4 h5

theorem splitFirst_prefix_none (c : Nat) (a b : List Nat) (ha : c ∉ a) :
    splitFirst c (a ++ c :: b) = some (a, b) := by
  induction a with
  | nil => simp [splitFirst]
  | cons x xs ih =>
    have hx : ¬x = c := by
      intro e
      subst e
      exact ha (List.mem_cons_self x xs)
    rw [List.cons_append]
    simp only [splitFirst]
    rw [if_neg hx, ih (fun h => ha (List.mem_cons_of_mem _ h))]
    rfl

theorem rsplitLast_some (c : Nat) (s l d : List Nat)
    (h : rsplitLast c s = some (l, d)) : s = l ++ c :: d ∧ c ∉ d := by
  unfold rsplitLast at h
  cases hsf : splitFirst c s.reverse with
  | none => rw [hsf] at h; cases h
  | some p =>
    rw [hsf] at h
    simp only [Option.map_some'] at h
    injection h with h2
    obtain ⟨rfl, rfl⟩ : p.2.reverse = l ∧ p.1.reverse = d := by
      constructor <;> [exact congrArg Prod.fst h2; exact congrArg Prod.snd h2]
    obtain ⟨h3, h4⟩ := splitFirst_some c s.reverse p.1 p.2 (by rw [hsf])
    constructor
    · have h5 := congrArg List.reverse h3
      rw [List.reverse_reverse] at h5
      rw [h5]
      simp [List.reverse_append]
    · exact fun hc => h4 (List.mem_reverse.mp hc)

theorem rsplitLast_append (c : Nat) (l d : List Nat) (hd : c ∉ d) :
    rsplitLast c (l ++ c :: d) = some (l, d) := by
  unfold rsplitLast
  have hrev : (l ++ c :: d).reverse = d.reverse ++ c :: l.reverse := by
    simp [List.reverse_append]
  rw [hrev, splitFirst_prefix_none c d.reverse l.reverse
    (fun h => hd (List.mem_reverse.mp h))]
  simp

theorem dropWhile_suffix (p : Nat → Bool) (l : List Nat) :
    ∃ t, l = t ++ l.dropWhile p := by
  induction l with
  | nil => exact ⟨[], rfl⟩
  | cons a l ih =>
    rw [List.dropWhile_cons]
    cases hpa : p a with
    | true =>
      simp only [if_true]
      rcases ih with ⟨t, ht⟩
      exact ⟨a :: t, by rw [List.cons_append, ← ht]⟩
    | false =>
      simp only [Bool.false_eq_true, if_false]
      exact ⟨[], rfl⟩

theorem head?_dropWhile (p : Nat → Bool) (l : List Nat) (x : Nat)
    (h : (l.dropWhile p).head? = some x) : p x = false := by
  induction l with
  | nil => cases h
  | cons a l ih =>
    rw [List.dropWhile_cons] at h
    cases hpa : p a with
    | true =>
      rw [hpa] at h
      simp only [if_true] at h
      exact ih h
    | false =>
      rw [hpa] at h
      simp only [Bool.false_eq_true, if_false, List.head?_cons,
        Option.some.injEq] at h
      rw [h] at hpa
      exact hpa

theorem head?_rstrip (m : List Nat) (x : Nat) (h : (rstrip m).head? = some x) :
    m.head? = some x := by
  obtain ⟨t, ht⟩ := dropWhile_suffix isSpace m.reverse
  have hm : m = rstrip m ++ t.reverse := by
    have h5 := congrArg List.reverse ht
    rw [List.reverse_reverse] at h5
    conv_lhs => rw [h5]
    rw [List.reverse_append]
    unfold rstrip
    rfl
  rw [hm, List.head?_append, h]
  rfl

theorem getLast?_rstrip (m : List Nat) (x : Nat)
    (h : (rstrip m).getLast? = some x) : isSpace x = false := by
  unfold rstrip at h
  rw [List.getLast?_reverse] at h
  exact head?_dropWhile isSpace m.reverse x h

theorem head?_pyStrip (s : List Nat) (x : Nat)
    (h : (pyStrip s).head? = some x) : isSpace x = false :=
  head?_dropWhile isSpace s x (head?_rstrip (lstrip s) x h)

theorem getLast?_pyStrip (s : List Nat) (x : Nat)
    (h : (pyStrip s).getLast? = some x) : isSpace x = false :=
  getLast?_rstrip (lstrip s) x h

/-- C8 counterexample: creating a user with email `A@B.COM` does not store
the fully lower-cased `a@b.com` — Django `normalize_email` lower-cases only
the domain part, so `A@b.com` is stored. -/
theorem create_user_email_not_fully_lowercased :
    Except.map User.email (create_user fixedHash (cp "A@B.COM") (cp "pw")) ≠
      Except.ok (cp "a@b.com") := by
  decide

/-- C8 (amended): email normalization is idempotent — for every email E,
normalize (normalize E) = normalize E — and creating a user with email
`A@B.COM` stores `A@b.com`: only the domain portion is lower-cased, so a
local part keeps its case, while an already-lower-case local part (the
repository test input `test@AMERICA.COM`) yields the fully lower-cased
form. -/
theorem normalize_email_idem_and_domain_lowering :
    (∀ E, normalize_email (normalize_email E) = normalize_email E) ∧
    Except.map User.email (create_user fixedHash (cp "A@B.COM") (cp "pw")) =
      Except.ok (cp "A@b.com") ∧
    Except.map User.email
        (create_user fixedHash (cp "test@AMERICA.COM") (cp "pw")) =
      Except.ok (cp "test@america.com") := by
  refine ⟨?_, by decide, by decide⟩
  intro E
  cases h : rsplitLast 64 (pyStrip E) with
  | none =>
    have hE : normalize_email E = E := by
      unfold normalize_email
      rw [h]
    rw [hE]
    exact hE
  | some p =>
    obtain ⟨l, d⟩ := p
    obtain ⟨hsp, hnd⟩ := rsplitLast_some 64 (pyStrip E) l d h
    have hE : normalize_email E = l ++ 64 :: d.map lowerCp := by
      unfold normalize_email
      rw [h]
    rw [hE]
    have hhead : ∀ x, (l ++ 64 :: d.map lowerCp).head? = some x →
        isSpace x = false := by
      intro x hx
      cases l with
      | nil =>
        simp only [List.nil_append, List.head?_cons, Option.some.injEq] at hx
        rw [← hx]
        decide
      | cons a l2 =>
        simp only [List.cons_append, List.head?_cons, Option.some.injEq] at hx
        have hps : (pyStrip E).head? = some a := by
          rw [hsp]
          rfl
        rw [← hx]
        exact head?_pyStrip E a hps
    have hlast : ∀ x, (l ++ 64 :: d.map lowerCp).getLast? = some x →
        isSpace x = false := by
      intro x hx
      cases hd2 : d with
      | nil =>
        subst hd2
        simp only [List.map_nil] at hx
        rw [List.getLast?_append] at hx
        have hor : ([64] : List Nat).getLast?.or l.getLast? = some 64 := rfl
        rw [hor] at hx
        injection hx with hx2
        rw [← hx2]
        decide
      | cons d0 ds =>
        subst hd2
        obtain ⟨y, hy⟩ : ∃ y, (d0 :: ds).getLast? = some y :=
          ⟨_, List.getLast?_eq_getLast_of_ne_nil (List.cons_ne_nil d0 ds)⟩
        have hps : (pyStrip E).getLast? = some y := by
          rw [hsp, List.getLast?_append, List.getLast?_cons_cons, hy]
          rfl
        have hysp := getLast?_pyStrip E y hps
        have hrl : (l ++ 64 :: (d0 :: ds).map lowerCp).getLast? =
            some (lowerCp y) := by
          rw [List.getLast?_append, List.map_cons, List.getLast?_cons_cons,
            ← List.map_cons, List.getLast?_map, hy]
          rfl
        rw [hrl] at hx
        injection hx with hx2
        rw [← hx2, isSpace_lowerCp]
        exact hysp
    have hstrip : pyStrip (l ++ 64 :: d.map lowerCp) =
        l ++ 64 :: d.map lowerCp :=
      pyStrip_eq_self _ hhead hlast
    have h64 : 64 ∉ d.map lowerCp := by
      intro hm
      rcases List.mem_map.mp hm with ⟨y, hy, hly⟩
      exact hnd ((lowerCp_eq_64_iff y).mp hly ▸ hy)
    unfold normalize_email
    rw [hstrip, rsplitLast_append 64 l (d.map lowerCp) h64]
    show l ++ 64 :: (d.map lowerCp).map lowerCp = l ++ 64 :: d.map lowerCp
    have hmaps : d.map (lowerCp ∘ lowerCp) = d.map lowerCp :=
      List.map_congr_left (fun a _ => lowerCp_idem a)
    rw [List.map_map, hmaps]

end RecipeApp
